import Mathlib

set_option maxHeartbeats 1000000

/-!
Verification development for the distributed query execution core
(`queryplanner/query_executor.rs`): plan splitting, cluster exchange,
partition scan building, type bridge and batch codec.
-/

namespace QueryExec

/-- Arrow data types, covering the variants matched by the source. -/
inductive ADataType
  | utf8
  | largeUtf8
  | int8
  | int16
  | int32
  | int64
  | uint8
  | uint16
  | uint32
  | uint64
  | float16
  | float64
  | boolean
  | timestampMicrosecond
  | timestampNanosecond
  | int64Decimal (scale : Nat)
  | otherType (tag : String)
  deriving DecidableEq, Repr

/-- A metastore column (also used for arrow schema fields, which the source
builds from columns one-for-one). -/
structure Column where
  name : String
  dataType : ADataType
  deriving DecidableEq, Repr

/-- A partition row: identifier plus the optional remote name of its
persisted columnar main file (`get_full_name`). -/
structure Partition where
  id : Nat
  fullName : Option String
  deriving DecidableEq, Repr

/-- A chunk row: identifier plus its remote-storage name. -/
structure Chunk where
  id : Nat
  fullName : String
  deriving DecidableEq, Repr

/-- A partition together with its chunks. -/
structure PartitionSnapshot where
  partition : Partition
  chunks : List Chunk
  deriving DecidableEq, Repr

/-- An index snapshot: table columns, index columns, partitions and the
optional join-key column list. -/
structure IndexSnapshot where
  tableCols : List Column
  indexCols : List Column
  partitions : List PartitionSnapshot
  joinOn : Option (List String)
  deriving DecidableEq, Repr

/-- The serialized plan shared between router and workers; the splitter only
ever specializes it by a partition-ID set (`with_partition_id_to_execute`). -/
structure SerializedPlan where
  partitionIdsToExecute : List Nat
  deriving DecidableEq, Repr

def SerializedPlan.withPartitionIdToExecute (sp : SerializedPlan)
    (ids : List Nat) : SerializedPlan :=
  { sp with partitionIdsToExecute := ids }

/-- State of a `ClusterSendExec` node (the cluster transport handle carries
no inspectable state and is omitted). -/
structure ClusterSendState where
  schema : List Column
  partitions : List (List Partition)
  availableNodes : List String
  serializedPlan : SerializedPlan
  deriving DecidableEq, Repr

/-- The node kinds a physical plan can carry; the source recognizes them by
runtime downcast. -/
inductive NodeKind
  | hashAggregateExec
  | sortExec
  | globalLimitExec
  | unionExec
  | mergeExec
  | mergeSortExec (joinCols : List String)
  | cubeTableExec (snapshot : IndexSnapshot)
  | clusterSendExec (st : ClusterSendState)
  | emptyExec (produceOneRow : Bool)
  | parquetExec (localPath : String) (projection : Option (List Nat)) (batchSize : Nat)
  | otherExec (tag : String)
  deriving DecidableEq, Repr

/-- A physical plan node: declared output schema, node kind, children. -/
inductive ExecPlan
  | mk (schema : List Column) (kind : NodeKind) (children : List ExecPlan)

def ExecPlan.schema : ExecPlan → List Column
  | .mk s _ _ => s

def ExecPlan.kind : ExecPlan → NodeKind
  | .mk _ k _ => k

def ExecPlan.children : ExecPlan → List ExecPlan
  | .mk _ _ cs => cs

/-- The three operator kinds `get_router_split_plan` probes with `has_node`. -/
inductive SplitKind
  | hashAgg
  | sortK
  | limitK
  deriving DecidableEq, Repr

def kindMatches : SplitKind → NodeKind → Bool
  | .hashAgg, .hashAggregateExec => true
  | .sortK, .sortExec => true
  | .limitK, .globalLimitExec => true
  | _, _ => false

mutual

/-- `has_node::<T>`: true iff the node or any descendant is of the kind. -/
def hasNode (k : SplitKind) : ExecPlan → Bool
  | .mk _ nd cs => kindMatches k nd || hasNodeList k cs

def hasNodeList (k : SplitKind) : List ExecPlan → Bool
  | [] => false
  | c :: cs => hasNode k c || hasNodeList k cs

end

mutual

/-- `index_snapshots_from_cube_table`: collect every `CubeTableExec`
snapshot reachable below the node, depth first. -/
def indexSnapshots : ExecPlan → List IndexSnapshot
  | .mk _ (.cubeTableExec snap) _ => [snap]
  | .mk _ _ cs => indexSnapshotsList cs

def indexSnapshotsList : List ExecPlan → List IndexSnapshot
  | [] => []
  | c :: cs => indexSnapshots c ++ indexSnapshotsList cs

end

mutual

/-- `union_snapshots_from_cube_table`: a `CubeTableExec` yields a singleton
group, a `UnionExec` flattens all descendant snapshots into one group, and
any other node concatenates the groups of its children. -/
def unionSnapshots : ExecPlan → List (List IndexSnapshot)
  | .mk _ (.cubeTableExec snap) _ => [[snap]]
  | .mk _ .unionExec cs => [indexSnapshotsList cs]
  | .mk _ _ cs => unionSnapshotsList cs

def unionSnapshotsList : List ExecPlan → List (List IndexSnapshot)
  | [] => []
  | c :: cs => unionSnapshots c ++ unionSnapshotsList cs

end

/-- `with_new_children` dispatched over node kinds: `ClusterSendExec`
accepts only an empty list (any other call panics in the source),
`CubeTableExec` replaces its `partition_execs` by the given list, the
single-input operators require exactly one child, the zero-input leaves
require none, and the n-ary nodes accept any list. -/
def withNewChildren : ExecPlan → List ExecPlan → Option ExecPlan
  | .mk s nd _, cs =>
    match nd with
    | .clusterSendExec st =>
      if cs.isEmpty then some (.mk s (.clusterSendExec st) []) else none
    | .cubeTableExec snap => some (.mk s (.cubeTableExec snap) cs)
    | .hashAggregateExec =>
      if cs.length = 1 then some (.mk s .hashAggregateExec cs) else none
    | .sortExec => if cs.length = 1 then some (.mk s .sortExec cs) else none
    | .globalLimitExec =>
      if cs.length = 1 then some (.mk s .globalLimitExec cs) else none
    | .mergeExec => if cs.length = 1 then some (.mk s .mergeExec cs) else none
    | .mergeSortExec jc =>
      if cs.length = 1 then some (.mk s (.mergeSortExec jc) cs) else none
    | .unionExec => some (.mk s .unionExec cs)
    | .emptyExec one =>
      if cs.isEmpty then some (.mk s (.emptyExec one) []) else none
    | .parquetExec path proj bs =>
      if cs.isEmpty then some (.mk s (.parquetExec path proj bs) []) else none
    | .otherExec tag => some (.mk s (.otherExec tag) cs)

/-- Cartesian product of lists in lexicographic order, last factor varying
fastest; `[]` yields the single empty tuple. -/
def cartList : List (List α) → List (List α)
  | [] => [[]]
  | g :: gs => g.flatMap (fun x => (cartList gs).map (fun t => x :: t))

/-- `itertools::multi_cartesian_product`: as `cartList`, except that an
empty collection of factors produces no tuples at all. -/
def multiCartesianProduct (ls : List (List α)) : List (List α) :=
  if ls.isEmpty then [] else cartList ls

/-- `ClusterSendExec::new`: flatten each union-snapshot group into its
partitions (in order) and take the multi-cartesian product across groups. -/
def ClusterSendExec.new (schema : List Column) (serializedPlan : SerializedPlan)
    (availableNodes : List String) (unionSnapshots : List (List IndexSnapshot)) :
    ClusterSendState :=
  let toMultiply := unionSnapshots.map (fun union =>
    union.flatMap (fun index => index.partitions.map (fun p => p.partition)))
  { schema := schema
    partitions := multiCartesianProduct toMultiply
    availableNodes := availableNodes
    serializedPlan := serializedPlan }

/-- Output partitioning declarations of physical plan nodes. -/
inductive Partitioning
  | unknownPartitioning (n : Nat)
  deriving DecidableEq, Repr

def ClusterSendExec.outputPartitioning (st : ClusterSendState) : Partitioning :=
  .unknownPartitioning st.partitions.length

/-- `ClusterSendExec::children` returns the empty vector. -/
def ClusterSendExec.children (_ : ClusterSendState) : List ExecPlan := []

/-- `ClusterSendExec::with_new_children`: panics (`none`) unless the list is
empty, in which case it rebuilds a copy of the node. -/
def ClusterSendExec.withNewChildren (st : ClusterSendState)
    (children : List ExecPlan) : Option ClusterSendState :=
  if children.length ≠ 0 then none
  else
    some
      { schema := st.schema
        partitions := st.partitions
        availableNodes := st.availableNodes
        serializedPlan := st.serializedPlan }

/-- The dispatch `ClusterSendExec::execute` performs for an output
partition: choose the first available node and specialize the shared
serialized plan by the partition IDs of that partition's tuple (out-of-range
indexing and an empty node list panic, modelled as `none`). -/
def ClusterSendExec.executeDispatch (st : ClusterSendState) (partition : Nat) :
    Option (String × SerializedPlan) :=
  match st.availableNodes.head?, st.partitions[partition]? with
  | some node, some tuple =>
    some (node, st.serializedPlan.withPartitionIdToExecute (tuple.map (fun p => p.id)))
  | _, _ => none

/-- `wrap_with_cluster_send`: with non-empty union-snapshot groups the split
node's children are replaced by a single non-preserving merge over a fresh
`ClusterSendExec` built from the first child's schema; with no groups they
are replaced by a single empty relation of that schema. Indexing
`children[0]` of a childless node panics, modelled as `none`. -/
def wrapWithClusterSend (sp : SerializedPlan) (nodes : List String)
    (p : ExecPlan) : Option ExecPlan :=
  let groups := unionSnapshots p
  match p.children.head? with
  | none => none
  | some c0 =>
    if groups.isEmpty then
      withNewChildren p [.mk c0.schema (.emptyExec false) []]
    else
      let st := ClusterSendExec.new c0.schema sp nodes groups
      withNewChildren p
        [.mk c0.schema .mergeExec [.mk c0.schema (.clusterSendExec st) []]]

/-- The split predicates passed as closures in the source. -/
inductive PredKind
  | predHashAgg
  | predSort
  | predLimit
  | predTrue
  deriving DecidableEq, Repr

/-- The downcast test `as_any().downcast_ref::<HashAggregateExec>().is_some()`. -/
def isHashAggregate (p : ExecPlan) : Bool :=
  match p.kind with
  | .hashAggregateExec => true
  | _ => false

def isSortExec (p : ExecPlan) : Bool :=
  match p.kind with
  | .sortExec => true
  | _ => false

def isGlobalLimitExec (p : ExecPlan) : Bool :=
  match p.kind with
  | .globalLimitExec => true
  | _ => false

def predEval : PredKind → ExecPlan → Bool
  | .predHashAgg, p => isHashAggregate p
  | .predSort, p => isSortExec p
  | .predLimit, p => isGlobalLimitExec p
  | .predTrue, _ => true

mutual

/-- `get_router_split_plan`: choose the split predicate by first-match on
[HashAggregate, Sort, GlobalLimit] over the whole subtree, falling back to
the always-true predicate. -/
def getRouterSplitPlan (sp : SerializedPlan) (nodes : List String)
    (p : ExecPlan) : Option ExecPlan :=
  if hasNode .hashAgg p then getRouterSplitPlanAt sp nodes .predHashAgg p
  else if hasNode .sortK p then getRouterSplitPlanAt sp nodes .predSort p
  else if hasNode .limitK p then getRouterSplitPlanAt sp nodes .predLimit p
  else getRouterSplitPlanAt sp nodes .predTrue p
termination_by (sizeOf p, 1)

/-- `get_router_split_plan_at`: wrap at the node when the predicate holds,
otherwise rebuild the node over recursively split children. -/
def getRouterSplitPlanAt (sp : SerializedPlan) (nodes : List String)
    (pk : PredKind) : ExecPlan → Option ExecPlan
  | .mk s nd cs =>
    if predEval pk (.mk s nd cs) then wrapWithClusterSend sp nodes (.mk s nd cs)
    else (routerSplitChildren sp nodes cs).bind (withNewChildren (.mk s nd cs))
termination_by p => (sizeOf p, 0)

def routerSplitChildren (sp : SerializedPlan) (nodes : List String) :
    List ExecPlan → Option (List ExecPlan)
  | [] => some []
  | c :: cs =>
    match getRouterSplitPlan sp nodes c, routerSplitChildren sp nodes cs with
    | some c2, some cs2 => some (c2 :: cs2)
    | _, _ => none
termination_by cs => (sizeOf cs, 2)

end

/-- `get_worker_split_plan` composed with `get_worker_split_plan_at`: the
predicate is re-chosen at every node by the same first-match rule; a node
with child count ≠ 1 is a fatal error (`none`); when the predicate matches,
descend past the node and return its single child. -/
def getWorkerSplitPlan : ExecPlan → Option ExecPlan
  | .mk s nd [c] =>
    let p : ExecPlan := .mk s nd [c]
    let pk : PredKind :=
      if hasNode .hashAgg p then .predHashAgg
      else if hasNode .sortK p then .predSort
      else if hasNode .limitK p then .predLimit
      else .predTrue
    if predEval pk p then some c else getWorkerSplitPlan c
  | _ => none

/-- The `CubeTable` provider: snapshot, remote→local name mapping, the
worker's partition-ID set, and the schema built from the index columns. -/
structure CubeTable where
  indexSnapshot : IndexSnapshot
  remoteToLocalNames : List (String × String)
  workerPartitionIds : List Nat
  deriving DecidableEq, Repr

/-- `CubeTable::try_new` builds the schema from the index columns. -/
def CubeTable.schema (t : CubeTable) : List Column :=
  t.indexSnapshot.indexCols

/-- `project_to_table`: select table columns by the projection indices
(out-of-range indexing panics, modelled as `none`). -/
def projectToTable (tableCols : List Column) (projectionColumnIndices : List Nat) :
    Option (List Column) :=
  projectionColumnIndices.mapM (fun i => tableCols.get? i)

/-- `project_to_index_positions`: for each projected column, the first
position in the index columns with the same name. -/
def projectToIndexPositions (projectionColumns : List Column)
    (indexCols : List Column) : List (Option Nat) :=
  projectionColumns.map (fun pc =>
    indexCols.findIdx? (fun c => c.name == pc.name))

/-- The `mapped_projection` of `async_scan`: resolve the table projection
against the index columns; an unresolvable entry panics (`unwrap`),
modelled as `none`. -/
def mappedProjectionOf (t : CubeTable) (p : List Nat) : Option (List Nat) :=
  (projectToTable t.indexSnapshot.tableCols p).bind (fun cols =>
    (projectToIndexPositions cols t.indexSnapshot.indexCols).mapM id)

def lookupLocal (m : List (String × String)) (remote : String) : Option String :=
  (m.find? (fun e => e.1 == remote)).map (fun e => e.2)

/-- The scan nodes `async_scan` emits for one partition snapshot that
passed the `worker_partition_ids` filter: one parquet scan for the
persisted main file when present, then one per chunk, in order. A missing
remote→local entry panics (`expect`), modelled as `none`. -/
def scanNodesForPartition (t : CubeTable) (mappedProjection : Option (List Nat))
    (batchSize : Nat) (ps : PartitionSnapshot) : Option (List ExecPlan) := do
  let fileNodes ←
    match ps.partition.fullName with
    | some remote => do
      let localPath ← lookupLocal t.remoteToLocalNames remote
      pure [ExecPlan.mk t.schema (.parquetExec localPath mappedProjection batchSize) []]
    | none => pure []
  let chunkNodes ← ps.chunks.mapM (fun ch => do
    let localPath ← lookupLocal t.remoteToLocalNames ch.fullName
    pure (ExecPlan.mk t.schema (.parquetExec localPath mappedProjection batchSize) []))
  pure (fileNodes ++ chunkNodes)

/-- The `partition_execs` loop of `async_scan`: partitions whose ID is not
in `worker_partition_ids` are skipped (`continue`); the rest contribute
their scan nodes in order. -/
def buildPartitionExecs (t : CubeTable) (mappedProjection : Option (List Nat))
    (batchSize : Nat) : Option (List ExecPlan) :=
  ((t.indexSnapshot.partitions.filter
        (fun ps => t.workerPartitionIds.contains ps.partition.id)).mapM
      (scanNodesForPartition t mappedProjection batchSize)).map List.flatten

/-- The projected output schema of `async_scan`: the index schema filtered
to the fields whose position occurs in the mapped projection, in
index-schema order. -/
def projectedSchema (schema : List Column) (p : List Nat) : List Column :=
  schema.enum.filterMap (fun f =>
    if p.contains f.1 then some f.2 else none)

/-- `CubeTable::async_scan`: remap the projection, fan out the partitions,
guard the empty case with an empty relation carrying the full index schema,
project the schema, and wrap in a sort-preserving merge when `join_on` is
set, a plain merge otherwise. -/
def CubeTable.asyncScan (t : CubeTable) (projection : Option (List Nat))
    (batchSize : Nat) : Option ExecPlan := do
  let mapped ←
    match projection with
    | none => pure none
    | some p => (mappedProjectionOf t p).map some
  let pes ← buildPartitionExecs t mapped batchSize
  let pes := if pes.isEmpty then [ExecPlan.mk t.schema (.emptyExec false) []] else pes
  let projSchema :=
    match mapped with
    | some p => projectedSchema t.schema p
    | none => t.schema
  match t.indexSnapshot.joinOn with
  | some joinColumns =>
    pure (.mk projSchema (.mergeSortExec joinColumns)
      [.mk projSchema (.cubeTableExec t.indexSnapshot) pes])
  | none =>
    pure (.mk projSchema .mergeExec
      [.mk projSchema (.cubeTableExec t.indexSnapshot) pes])

/-- Modelled from the spec: executing datafusion's `EmptyExec` (not under
`src/`) with `produce_one_row = false` produces zero record batches; with
`true` it produces a single placeholder batch. -/
def emptyExecBatchCount (produceOneRow : Bool) : Nat :=
  if produceOneRow then 1 else 0

/-- The engine's row value type (`TableValue`). -/
inductive TableValue
  | null
  | int (v : Int)
  | decimal (s : String)
  | timestamp (ns : Int)
  | str (s : String)
  | boolean (b : Bool)
  deriving DecidableEq, Repr

/-- The `u64 as i64` cast applied to `UInt64Array` values: wrapping
reinterpretation of the 64-bit pattern as signed. -/
def u64AsI64 (n : Nat) : Int :=
  let m : Nat := n % 2 ^ 64
  if m < 2 ^ 63 then (m : Int) else (m : Int) - 2 ^ 64

/-- `BigDecimal::new(BigInt::from(v), scale).to_string()`: the integer `v`
scaled by `10^scale`, printed with exactly `scale` fractional digits. -/
def bigDecimalToString (v : Int) (scale : Nat) : String :=
  if scale = 0 then toString v
  else
    let sign := if v < 0 then "-" else ""
    let n := v.natAbs
    let ip := n / 10 ^ scale
    let fp := n % 10 ^ scale
    let fpStr := toString fp
    let padded := String.mk (List.replicate (scale - fpStr.length) '0') ++ fpStr
    sign ++ toString ip ++ "." ++ padded

def isAsciiDigit (c : Char) : Bool := '0' ≤ c && c ≤ '9'

def isNonzeroDigit (c : Char) : Bool := '1' ≤ c && c ≤ '9'

/-- The optional leading minus consumed by `-?`. -/
def splitSign : List Char → List Char × List Char
  | [] => ([], [])
  | c :: rest => if c = '-' then (['-'], rest) else ([], c :: rest)

/-- The fractional-part decision of the regex: an all-zero fraction is the
second alternative (keep sign and integer part); a fraction of nonzero
digits followed by at least one trailing zero is the first alternative
(also keep those digits); anything else leaves the input unchanged. -/
def cutFrac (sign intPart frac orig : List Char) : List Char :=
  if !frac.isEmpty && frac.all (fun c => c == '0') then sign ++ intPart
  else
    let zs := frac.reverse.takeWhile (fun c => c == '0')
    let fs := (frac.reverse.dropWhile (fun c => c == '0')).reverse
    if !zs.isEmpty && !fs.isEmpty && fs.all isNonzeroDigit then
      sign ++ intPart ++ '.' :: fs
    else orig

/-- After the sign, both alternatives require `\d+` followed by a literal
dot; otherwise the input is unchanged. -/
def cutAfterSign (sign rest orig : List Char) : List Char :=
  let intPart := rest.takeWhile isAsciiDigit
  let tail := rest.dropWhile isAsciiDigit
  if intPart.isEmpty then orig
  else
    match tail with
    | '.' :: frac => cutFrac sign intPart frac orig
    | _ => orig

/-- `Regex::replace` with the pattern
`^(-?\d+\.[1-9]+)([0]+)$|^(-?\d+)(\.[0]+)$` and replacement `$1$3`:
the first alternative keeps the sign, integer part and the all-nonzero
fractional digits, dropping the trailing zeros; the second keeps only the
sign and integer part, dropping an all-zero fraction; a string matching
neither alternative is returned unchanged. -/
def cutTrailingZerosCore (cs : List Char) : List Char :=
  cutAfterSign (splitSign cs).1 (splitSign cs).2 cs

def cutTrailingZeros (s : String) : String :=
  String.mk (cutTrailingZerosCore s.data)

/-- The scales `batch_to_dataframe` matches on `DataType::Int64Decimal`. -/
def supportedDecimalScales : List Nat := [0, 1, 2, 3, 4, 5, 10]

/-- A column's values as handed to `batch_to_dataframe`, one constructor
per array type the conversion match distinguishes. (`Float64` columns go
through floating-point `BigDecimal::try_from` and are outside this integer
model.) -/
inductive ColumnArray
  | uint64Arr (vals : List (Option Nat))
  | int64Arr (vals : List (Option Int))
  | int64DecimalArr (scale : Nat) (vals : List (Option Int))
  | tsMicroArr (vals : List (Option Int))
  | tsNanoArr (vals : List (Option Int))
  | utf8Arr (vals : List (Option String))
  | boolArr (vals : List (Option Bool))
  | int8Arr (vals : List (Option Int))
  | int16Arr (vals : List (Option Int))
  | int32Arr (vals : List (Option Int))
  | uint8Arr (vals : List (Option Nat))
  | uint16Arr (vals : List (Option Nat))
  | uint32Arr (vals : List (Option Nat))
  deriving DecidableEq, Repr

def convertCell (f : α → TableValue) : Option α → TableValue
  | none => .null
  | some v => f v

/-- The per-column arm of `batch_to_dataframe`'s `match array.data_type()`:
`UInt64`/`Int64` widen to `Int`, the supported `Int64Decimal` scales render
through `BigDecimal` and trailing-zero trimming, timestamps normalize to
nanoseconds, strings and booleans pass through, nulls become `Null`, and
every other type panics with "Unsupported data type". -/
def convertColumn : ColumnArray → Except String (List TableValue)
  | .uint64Arr vals => .ok (vals.map (convertCell (fun n => .int (u64AsI64 n))))
  | .int64Arr vals => .ok (vals.map (convertCell (fun v => .int v)))
  | .int64DecimalArr scale vals =>
    if supportedDecimalScales.contains scale then
      .ok (vals.map (convertCell (fun v =>
        .decimal (cutTrailingZeros (bigDecimalToString v scale)))))
    else .error "Unsupported data type"
  | .tsMicroArr vals => .ok (vals.map (convertCell (fun v => .timestamp (v * 1000))))
  | .tsNanoArr vals => .ok (vals.map (convertCell (fun v => .timestamp v)))
  | .utf8Arr vals => .ok (vals.map (convertCell (fun s => .str s)))
  | .boolArr vals => .ok (vals.map (convertCell (fun b => .boolean b)))
  | .int8Arr _ => .error "Unsupported data type"
  | .int16Arr _ => .error "Unsupported data type"
  | .int32Arr _ => .error "Unsupported data type"
  | .uint8Arr _ => .error "Unsupported data type"
  | .uint16Arr _ => .error "Unsupported data type"
  | .uint32Arr _ => .error "Unsupported data type"

/-- `arrow_to_column_type`: summary column type of an arrow field. -/
inductive ColumnType
  | string
  | timestamp
  | decimalT (scale : Int) (precision : Int)
  | boolean
  | intT
  deriving DecidableEq, Repr

def arrowToColumnType : ADataType → Except String ColumnType
  | .utf8 => .ok .string
  | .largeUtf8 => .ok .string
  | .timestampMicrosecond => .ok .timestamp
  | .timestampNanosecond => .ok .timestamp
  | .float16 => .ok (.decimalT 10 18)
  | .float64 => .ok (.decimalT 10 18)
  | .int64Decimal scale => .ok (.decimalT scale 18)
  | .boolean => .ok .boolean
  | .int8 => .ok .intT
  | .int16 => .ok .intT
  | .int32 => .ok .intT
  | .int64 => .ok .intT
  | .uint8 => .ok .intT
  | .uint16 => .ok .intT
  | .uint32 => .ok .intT
  | .uint64 => .ok .intT
  | .otherType tag => .error ("unsupported type " ++ tag)

/-- A record batch: a schema and its column data. -/
structure RecordBatch where
  schema : List Column
  columns : List ColumnArray
  deriving DecidableEq, Repr

/-- Modelled from the spec: one message of the columnar IPC stream format
(the arrow IPC writer/reader are not under `src/`). The stream is
self-describing: a schema message followed by batch messages that carry
only column data and are decoded against the stream schema. -/
inductive IpcMessage
  | schemaMsg (schema : List Column)
  | batchMsg (columns : List ColumnArray)
  deriving DecidableEq, Repr

/-- The serialized byte buffer, as the sequence of IPC messages it holds. -/
structure SerializedRecordBatchStream where
  recordBatchFile : List IpcMessage
  deriving DecidableEq, Repr

/-- `SerializedRecordBatchStream::write`: take the schema from the first
batch (indexing `record_batches[0]` panics on empty input, modelled as
`none`), then append each batch as an IPC message, in order. -/
def SerializedRecordBatchStream.write (recordBatches : List RecordBatch) :
    Option SerializedRecordBatchStream :=
  match recordBatches with
  | [] => none
  | b0 :: _ =>
    some ⟨.schemaMsg b0.schema :: recordBatches.map (fun b => .batchMsg b.columns)⟩

/-- `SerializedRecordBatchStream::read`: parse the stream — a leading
schema message, then batch messages decoded against that schema, in
order. -/
def SerializedRecordBatchStream.read (s : SerializedRecordBatchStream) :
    Option (List RecordBatch) :=
  match s.recordBatchFile with
  | .schemaMsg schema :: rest =>
    rest.mapM (fun m =>
      match m with
      | .batchMsg cols => some (RecordBatch.mk schema cols)
      | .schemaMsg _ => none)
  | _ => none

/-! Concrete instances used by the scenario theorems. -/

def colA : Column := ⟨"a", .int64⟩

def colB : Column := ⟨"b", .utf8⟩

def colC : Column := ⟨"c", .float64⟩

/-- A snapshot with two partitions over a single-column index. -/
def snapA : IndexSnapshot :=
  { tableCols := [colA]
    indexCols := [colA]
    partitions := [⟨⟨1, none⟩, []⟩, ⟨⟨2, none⟩, []⟩]
    joinOn := none }

/-- A second snapshot with three partitions. -/
def snapB : IndexSnapshot :=
  { tableCols := [colB]
    indexCols := [colB]
    partitions := [⟨⟨3, none⟩, []⟩, ⟨⟨4, none⟩, []⟩, ⟨⟨5, none⟩, []⟩]
    joinOn := none }

def sp0 : SerializedPlan := ⟨[]⟩

def nodes0 : List String := ["node-1"]

/-- The aggregate-split scenario plan `HashAggregate(Sort(IndexScan))`. -/
def c1Scan : ExecPlan := .mk [colA] (.cubeTableExec snapA) []

def c1Plan : ExecPlan :=
  .mk [colA] .hashAggregateExec [.mk [colA] .sortExec [c1Scan]]

/-- The router plan the source produces for `c1Plan`:
`HashAggregate(Merge(ClusterSend))`. -/
def c1Router : ExecPlan :=
  .mk [colA] .hashAggregateExec
    [.mk [colA] .mergeExec
      [.mk [colA]
        (.clusterSendExec (ClusterSendExec.new [colA] sp0 nodes0 [[snapA]])) []]]

/-- The worker plan for `c1Plan`: `Sort(IndexScan)`. -/
def c1Worker : ExecPlan := .mk [colA] .sortExec [c1Scan]

/-- A plan with no HashAggregate, Sort or GlobalLimit: a generic
single-child operator over an index scan. -/
def c4Plan : ExecPlan := .mk [colA] (.otherExec "Projection") [c1Scan]

/-- The projection-remap scenario: table `[a:int,b:string,c:double]`,
index `[b,c,a]`. -/
def c3Snapshot : IndexSnapshot :=
  { tableCols := [colA, colB, colC]
    indexCols := [colB, colC, colA]
    partitions := []
    joinOn := none }

def c3Table : CubeTable :=
  { indexSnapshot := c3Snapshot
    remoteToLocalNames := []
    workerPartitionIds := [] }

/-- A worker-side table whose partition-ID set is empty. -/
def c7Table : CubeTable :=
  { indexSnapshot := snapA
    remoteToLocalNames := []
    workerPartitionIds := [] }

/-! ### Theorems -/

/-- C6: every `ClusterSend` node reports no children, and
`with_new_children` with any non-empty children list fails fatally — both
on the node's own API and through the plan-tree rebuild. -/
theorem c6_cluster_send_leaf :
    (∀ st : ClusterSendState, ClusterSendExec.children st = []) ∧
    (∀ (st : ClusterSendState) (cs : List ExecPlan), cs ≠ [] →
      ClusterSendExec.withNewChildren st cs = none) ∧
    (∀ (s : List Column) (st : ClusterSendState) (cs0 cs : List ExecPlan),
      cs ≠ [] → withNewChildren (.mk s (.clusterSendExec st) cs0) cs = none) := by
  refine ⟨fun _ => rfl, fun st cs h => ?_, fun s st cs0 cs h => ?_⟩
  · simp [ClusterSendExec.withNewChildren, h]
  · simp [withNewChildren, h]

/-- Witness for C6 at a concrete node and a singleton children list. -/
theorem c6_witness :
    ClusterSendExec.withNewChildren ⟨[], [], [], ⟨[]⟩⟩
      [ExecPlan.mk [] .unionExec []] = none :=
  c6_cluster_send_leaf.2.1 _ _ (by simp)

/-- C9 counterexample: for an `Int8` column the conversion does not
materialize `Int` values — it fails with the "Unsupported data type"
panic, because `batch_to_dataframe` matches only the 64-bit integer
types. -/
theorem c9_counterexample :
    convertColumn (.int8Arr [some 1]) = .error "Unsupported data type" ∧
    convertColumn (.int8Arr [some 1]) ≠ .ok [.int 1] := by
  refine ⟨rfl, ?_⟩
  simp [convertColumn]

/-- C9 amended: only width-64 integer columns are materialized as
`Int(i64)` — `Int64` values pass through, `UInt64` values are cast with
`as i64` (value-preserving below `2^63`) — while widths 8, 16 and 32,
signed or unsigned, hit the unsupported-type panic. -/
theorem c9_int64_only_width64 :
    (∀ vals, convertColumn (.int64Arr vals) =
      .ok (vals.map (convertCell (fun v => .int v)))) ∧
    (∀ vals, convertColumn (.uint64Arr vals) =
      .ok (vals.map (convertCell (fun n => .int (u64AsI64 n))))) ∧
    (∀ n : Nat, n < 2 ^ 63 → u64AsI64 n = (n : Int)) ∧
    (∀ vals, convertColumn (.int8Arr vals) = .error "Unsupported data type") ∧
    (∀ vals, convertColumn (.int16Arr vals) = .error "Unsupported data type") ∧
    (∀ vals, convertColumn (.int32Arr vals) = .error "Unsupported data type") ∧
    (∀ vals, convertColumn (.uint8Arr vals) = .error "Unsupported data type") ∧
    (∀ vals, convertColumn (.uint16Arr vals) = .error "Unsupported data type") ∧
    (∀ vals, convertColumn (.uint32Arr vals) = .error "Unsupported data type") := by
  refine ⟨fun _ => rfl, fun _ => rfl, fun n h => ?_, fun _ => rfl, fun _ => rfl,
    fun _ => rfl, fun _ => rfl, fun _ => rfl, fun _ => rfl⟩
  have hlt : n % 2 ^ 64 = n := Nat.mod_eq_of_lt (lt_trans h (by norm_num))
  simp only [u64AsI64, hlt]
  rw [if_pos h]

/-- Witness for C9 amended: the value-preserving cast at a concrete
`UInt64` value below `2^63`. -/
theorem c9_witness : u64AsI64 5 = (5 : Int) :=
  c9_int64_only_width64.2.2.1 5 (by norm_num)

lemma takeWhile_append_not (p : Char → Bool) (l : List Char) (b : Char)
    (r : List Char) (hl : ∀ a ∈ l, p a = true) (hb : p b = false) :
    (l ++ b :: r).takeWhile p = l := by
  induction l with
  | nil => simp [List.takeWhile_cons, hb]
  | cons x xs ih =>
    have hx := hl x (by simp)
    simp only [List.cons_append, List.takeWhile_cons, hx, if_true]
    rw [ih (fun a ha => hl a (by simp [ha]))]

lemma dropWhile_append_not (p : Char → Bool) (l : List Char) (b : Char)
    (r : List Char) (hl : ∀ a ∈ l, p a = true) (hb : p b = false) :
    (l ++ b :: r).dropWhile p = b :: r := by
  induction l with
  | nil => simp [List.dropWhile_cons, hb]
  | cons x xs ih =>
    have hx := hl x (by simp)
    simp only [List.cons_append, List.dropWhile_cons, hx, if_true]
    exact ih (fun a ha => hl a (by simp [ha]))

lemma splitSign_digits (sign ds rest : List Char)
    (hsign : sign = [] ∨ sign = ['-']) (hds : ds ≠ [])
    (hdsd : ∀ c ∈ ds, isAsciiDigit c = true) :
    splitSign (sign ++ (ds ++ rest)) = (sign, ds ++ rest) := by
  obtain ⟨d, ds', rfl⟩ := List.exists_cons_of_ne_nil hds
  have hcm : ¬ d = '-' := by
    intro h
    have hc := hdsd d (by simp)
    rw [h] at hc
    exact absurd hc (by decide)
  rcases hsign with h | h <;> subst h
  · simp [splitSign, hcm]
  · simp [splitSign]

lemma ne_nil_isEmpty_false {l : List Char} (h : l ≠ []) : l.isEmpty = false := by
  cases l with
  | nil => exact absurd rfl h
  | cons a t => rfl

lemma nonzero_digit_ne_zero {c : Char} (h : isNonzeroDigit c = true) :
    (c == '0') = false := by
  rcases Bool.and_eq_true .. |>.mp h with ⟨h1, _⟩
  simp only [beq_eq_false_iff_ne, ne_eq]
  intro hc
  rw [hc] at h1
  exact absurd h1 (by decide)

/-- Characterization of the first regex alternative
`^(-?\d+\.[1-9]+)([0]+)$`: the trailing zeros are dropped and the sign,
integer part and nonzero fractional digits are kept. -/
lemma cutCore_alt1 (sign ds fs zs : List Char)
    (hsign : sign = [] ∨ sign = ['-']) (hds : ds ≠ [])
    (hdsd : ∀ c ∈ ds, isAsciiDigit c = true) (hfs : fs ≠ [])
    (hfsd : ∀ c ∈ fs, isNonzeroDigit c = true) (hzs : zs ≠ [])
    (hzsd : ∀ c ∈ zs, c = '0') :
    cutTrailingZerosCore (sign ++ ds ++ '.' :: (fs ++ zs)) =
      sign ++ ds ++ '.' :: fs := by
  have hdot : isAsciiDigit '.' = false := by decide
  have hsplit := splitSign_digits sign ds ('.' :: (fs ++ zs)) hsign hds hdsd
  have htake := takeWhile_append_not isAsciiDigit ds '.' (fs ++ zs) hdsd hdot
  have hdrop := dropWhile_append_not isAsciiDigit ds '.' (fs ++ zs) hdsd hdot
  have hallzero : ((fs ++ zs).all (fun c => c == '0')) = false := by
    obtain ⟨f, fs', rfl⟩ := List.exists_cons_of_ne_nil hfs
    cases hall : (f :: fs' ++ zs).all (fun c => c == '0') with
    | false => rfl
    | true =>
      have hf := List.all_eq_true.mp hall f (by simp)
      rw [nonzero_digit_ne_zero (hfsd f (by simp))] at hf
      exact absurd hf (by decide)
  obtain ⟨b, rs, hrev⟩ : ∃ b rs, fs.reverse = b :: rs := by
    cases h : fs.reverse with
    | nil => exact absurd (List.reverse_eq_nil_iff.mp h) hfs
    | cons b rs => exact ⟨b, rs, rfl⟩
  have hbz : (fun c => c == '0') b = false := by
    have hb : b ∈ fs := by
      rw [← List.mem_reverse, hrev]
      simp
    exact nonzero_digit_ne_zero (hfsd b hb)
  have hzrev : ∀ a ∈ zs.reverse, (fun c => c == '0') a = true := by
    intro a ha
    simp [hzsd a (List.mem_reverse.mp ha)]
  have hrevfrac : (fs ++ zs).reverse = zs.reverse ++ b :: rs := by
    rw [List.reverse_append, hrev]
  have htakez := takeWhile_append_not (fun c => c == '0') zs.reverse b rs hzrev hbz
  have hdropz := dropWhile_append_not (fun c => c == '0') zs.reverse b rs hzrev hbz
  have hback : (b :: rs).reverse = fs := by
    rw [← hrev, List.reverse_reverse]
  simp only [List.append_assoc]
  unfold cutTrailingZerosCore
  rw [hsplit]
  unfold cutAfterSign
  simp only
  rw [htake, hdrop, ne_nil_isEmpty_false hds]
  simp only [Bool.false_eq_true, if_false]
  unfold cutFrac
  rw [hallzero]
  simp only [Bool.and_false, Bool.not_false]
  rw [hrevfrac, htakez, hdropz, hback]
  rw [ne_nil_isEmpty_false (fun h => hzs (List.reverse_eq_nil_iff.mp h)),
    ne_nil_isEmpty_false hfs, List.all_eq_true.mpr hfsd]
  simp

/-- Characterization of the second regex alternative `^(-?\d+)(\.[0]+)$`:
an all-zero fraction is dropped entirely. -/
lemma cutCore_alt2 (sign ds zs : List Char)
    (hsign : sign = [] ∨ sign = ['-']) (hds : ds ≠ [])
    (hdsd : ∀ c ∈ ds, isAsciiDigit c = true) (hzs : zs ≠ [])
    (hzsd : ∀ c ∈ zs, c = '0') :
    cutTrailingZerosCore (sign ++ ds ++ '.' :: zs) = sign ++ ds := by
  have hdot : isAsciiDigit '.' = false := by decide
  have hsplit := splitSign_digits sign ds ('.' :: zs) hsign hds hdsd
  have htake := takeWhile_append_not isAsciiDigit ds '.' zs hdsd hdot
  have hdrop := dropWhile_append_not isAsciiDigit ds '.' zs hdsd hdot
  have hallzero : (zs.all (fun c => c == '0')) = true :=
    List.all_eq_true.mpr (fun a ha => by simp [hzsd a ha])
  simp only [List.append_assoc]
  unfold cutTrailingZerosCore
  rw [hsplit]
  unfold cutAfterSign
  simp only
  rw [htake, hdrop, ne_nil_isEmpty_false hds]
  simp only [Bool.false_eq_true, if_false]
  unfold cutFrac
  rw [ne_nil_isEmpty_false hzs, hallzero]
  simp

/-- C5 counterexample: the source regex leaves `"-0.050"` unchanged —
the first alternative requires the kept fractional digits to be all
nonzero, which the interior `0` of `05` violates — whereas the claim
expects `"-0.05"`. -/
theorem c5_counterexample :
    cutTrailingZeros "-0.050" = "-0.050" ∧
    cutTrailingZeros "-0.050" ≠ "-0.05" := by
  decide

/-- C5 amended: the trimming equals the one-pass rewrite by
`^(-?\d+\.[1-9]+)([0]+)$ | ^(-?\d+)(\.[0]+)$` — first alternative keeps
sign, integer part and the (all-nonzero) fractional digits; second drops
the all-zero fraction; non-matching strings are kept as-is — with the
examples `"1.10" → "1.1"`, `"1.00" → "1"`, `"-0.050" → "-0.050"`
(unchanged: neither alternative matches a fraction with an interior zero),
`"1.5" → "1.5"`, `"10" → "10"`. -/
theorem c5_trailing_zero_rewrite :
    (∀ sign ds fs zs : List Char, sign = [] ∨ sign = ['-'] → ds ≠ [] →
      (∀ c ∈ ds, isAsciiDigit c = true) → fs ≠ [] →
      (∀ c ∈ fs, isNonzeroDigit c = true) → zs ≠ [] → (∀ c ∈ zs, c = '0') →
      cutTrailingZeros (String.mk (sign ++ ds ++ '.' :: (fs ++ zs))) =
        String.mk (sign ++ ds ++ '.' :: fs)) ∧
    (∀ sign ds zs : List Char, sign = [] ∨ sign = ['-'] → ds ≠ [] →
      (∀ c ∈ ds, isAsciiDigit c = true) → zs ≠ [] → (∀ c ∈ zs, c = '0') →
      cutTrailingZeros (String.mk (sign ++ ds ++ '.' :: zs)) =
        String.mk (sign ++ ds)) ∧
    cutTrailingZeros "1.10" = "1.1" ∧
    cutTrailingZeros "1.00" = "1" ∧
    cutTrailingZeros "-0.050" = "-0.050" ∧
    cutTrailingZeros "1.5" = "1.5" ∧
    cutTrailingZeros "10" = "10" := by
  refine ⟨fun sign ds fs zs h1 h2 h3 h4 h5 h6 h7 => ?_,
    fun sign ds zs h1 h2 h3 h4 h5 => ?_, by decide, by decide, by decide,
    by decide, by decide⟩
  · show String.mk (cutTrailingZerosCore (sign ++ ds ++ '.' :: (fs ++ zs))) = _
    rw [cutCore_alt1 sign ds fs zs h1 h2 h3 h4 h5 h6 h7]
  · show String.mk (cutTrailingZerosCore (sign ++ ds ++ '.' :: zs)) = _
    rw [cutCore_alt2 sign ds zs h1 h2 h3 h4 h5]

/-- Witness for C5 amended: the first alternative at `"12.300" → "12.3"`. -/
theorem c5_witness :
    cutTrailingZeros (String.mk ([] ++ ['1', '2'] ++ '.' :: (['3'] ++ ['0', '0']))) =
      String.mk ([] ++ ['1', '2'] ++ '.' :: ['3']) :=
  c5_trailing_zero_rewrite.1 [] ['1', '2'] ['3'] ['0', '0'] (Or.inl rfl)
    (by simp) (by decide) (by simp) (by decide) (by simp) (by decide)

/-- C10: a `UInt64` value at or above `2^63` is materialized as a negative
`Int` by the wrapping `as i64` cast, with no error. -/
theorem c10_uint64_wrapping (n : Nat) (h1 : 2 ^ 63 ≤ n) (h2 : n < 2 ^ 64) :
    convertColumn (.uint64Arr [some n]) = .ok [.int ((n : Int) - 2 ^ 64)] ∧
    (n : Int) - 2 ^ 64 < 0 := by
  constructor
  · have hm : n % 2 ^ 64 = n := Nat.mod_eq_of_lt h2
    simp only [convertColumn, convertCell, u64AsI64, hm, List.map_cons, List.map_nil]
    rw [if_neg (by omega)]
  · have : (n : Int) < 2 ^ 64 := by exact_mod_cast h2
    omega

/-- Witness for C10 at `u64::MAX`, which materializes as `Int(-1)`. -/
theorem c10_witness :
    convertColumn (.uint64Arr [some (2 ^ 64 - 1)]) = .ok [.int (-1)] ∧
    ((2 ^ 64 - 1 : Nat) : Int) - 2 ^ 64 < 0 := by
  have h := c10_uint64_wrapping (2 ^ 64 - 1) (by norm_num) (by norm_num)
  refine ⟨?_, h.2⟩
  rw [h.1]
  norm_num

lemma read_batch_msgs (s : List Column) (l : List RecordBatch)
    (hs : ∀ b ∈ l, b.schema = s) :
    (l.map (fun b => IpcMessage.batchMsg b.columns)).mapM (fun m =>
      match m with
      | .batchMsg cols => some (RecordBatch.mk s cols)
      | .schemaMsg _ => none) = some l := by
  induction l with
  | nil => rfl
  | cons b t ih =>
    simp only [List.map_cons, List.mapM_cons]
    rw [ih (fun x hx => hs x (by simp [hx]))]
    have hb : RecordBatch.mk s b.columns = b := by
      rw [← hs b (by simp)]
    simp [hb]

/-- C8: serializing a non-empty batch list — schema message from the first
batch, then one message per batch in order — and reading it back restores
the batches element-wise, provided they share the first batch's schema. -/
theorem c8_roundtrip (batches : List RecordBatch) (b0 : RecordBatch)
    (rest : List RecordBatch) (hb : batches = b0 :: rest)
    (hs : ∀ b ∈ batches, b.schema = b0.schema) :
    (SerializedRecordBatchStream.write batches).bind
      SerializedRecordBatchStream.read = some batches := by
  subst hb
  simp only [SerializedRecordBatchStream.write, Option.bind_some,
    SerializedRecordBatchStream.read, List.map_cons]
  have hb0 : RecordBatch.mk b0.schema b0.columns = b0 := rfl
  rw [show (IpcMessage.batchMsg b0.columns :: rest.map (fun b => IpcMessage.batchMsg b.columns)) =
      (b0 :: rest).map (fun b => IpcMessage.batchMsg b.columns) from rfl]
  exact read_batch_msgs b0.schema (b0 :: rest) hs

/-- Witness for C8 on two concrete single-column batches. -/
theorem c8_witness :
    (SerializedRecordBatchStream.write
      [⟨[colA], [.int64Arr [some 1]]⟩, ⟨[colA], [.int64Arr [some 2, none]]⟩]).bind
      SerializedRecordBatchStream.read =
      some [⟨[colA], [.int64Arr [some 1]]⟩, ⟨[colA], [.int64Arr [some 2, none]]⟩] :=
  c8_roundtrip _ ⟨[colA], [.int64Arr [some 1]]⟩ [⟨[colA], [.int64Arr [some 2, none]]⟩]
    rfl (by
      intro b hb
      simp only [List.mem_cons, List.not_mem_nil, or_false] at hb
      rcases hb with rfl | rfl <;> rfl)

lemma cartList_length (ls : List (List α)) :
    (cartList ls).length = (ls.map List.length).prod := by
  induction ls with
  | nil => simp [cartList]
  | cons g gs ih =>
    simp only [cartList, List.map_cons, List.prod_cons, List.length_flatMap]
    rw [show (List.length ∘ fun x => (cartList gs).map (fun t => x :: t)) =
        fun _ => (cartList gs).length from funext (fun x => by simp)]
    rw [List.map_const', List.sum_replicate, smul_eq_mul, ih]

/-- Lexicographic indexing of the cartesian product: prefixing group `g`
puts the tuple headed by `g`'s `i`-th element and continuing with the
`j`-th tuple of the rest at linear index `i * |rest tuples| + j`. -/
lemma cartList_getElem (g : List α) (gs : List (List α)) (i j : Nat) (x : α)
    (t : List α) (hx : g[i]? = some x) (ht : (cartList gs)[j]? = some t) :
    (cartList (g :: gs))[i * (cartList gs).length + j]? = some (x :: t) := by
  induction g generalizing i with
  | nil => simp at hx
  | cons a g' ih =>
    have hj : j < (cartList gs).length := by
      by_contra h
      rw [List.getElem?_eq_none (by omega)] at ht
      exact Option.noConfusion ht
    have hunfold : cartList ((a :: g') :: gs) =
        ((cartList gs).map (fun t => a :: t)) ++ cartList (g' :: gs) := by
      simp [cartList]
    rw [hunfold]
    cases i with
    | zero =>
      obtain rfl : a = x := by simpa using hx
      rw [Nat.zero_mul, Nat.zero_add,
        List.getElem?_append_left (by simpa using hj), List.getElem?_map, ht]
      rfl
    | succ i' =>
      have hx' : g'[i']? = some x := by simpa using hx
      have hidx : (i' + 1) * (cartList gs).length + j =
          ((cartList gs).map (fun t => a :: t)).length +
            (i' * (cartList gs).length + j) := by
        simp only [List.length_map]
        ring
      rw [hidx, List.getElem?_append_right (Nat.le_add_right _ _),
        Nat.add_sub_cancel_left]
      exact ih i' hx'

lemma cartList_single (l : List α) : cartList [l] = l.map (fun y => [y]) := by
  induction l with
  | nil => rfl
  | cons a t ih => simp [cartList] at ih ⊢; exact ih

/-- The flattened partition lists of the union-snapshot groups. -/
def flattenGroups (groups : List (List IndexSnapshot)) : List (List Partition) :=
  groups.map (fun union =>
    union.flatMap (fun index => index.partitions.map (fun p => p.partition)))

lemma clusterSendNew_partitions (schema : List Column) (sp : SerializedPlan)
    (nodes : List String) (groups : List (List IndexSnapshot)) (hg : groups ≠ []) :
    (ClusterSendExec.new schema sp nodes groups).partitions =
      cartList (flattenGroups groups) := by
  have hne : (groups.map (fun union =>
      union.flatMap (fun index => index.partitions.map (fun p => p.partition)))).isEmpty =
      false := by
    cases groups with
    | nil => exact absurd rfl hg
    | cons a l => rfl
  simp only [ClusterSendExec.new, multiCartesianProduct, flattenGroups, hne,
    Bool.false_eq_true, if_false]

/-- C2: the `ClusterSend` built from non-empty union-snapshot groups has
`UnknownPartitioning` of the product of the flattened group sizes, its
tuples are the lexicographic cartesian product (for two groups, tuple
`(aᵢ, bⱼ)` sits at linear index `i·|B|+j`), and executing output partition
`i` dispatches the serialized plan specialized to exactly the partition IDs
of the `i`-th tuple. -/
theorem c2_cluster_send_cartesian (schema : List Column) (sp : SerializedPlan)
    (nodes : List String) (groups : List (List IndexSnapshot))
    (hg : groups ≠ []) :
    ClusterSendExec.outputPartitioning (ClusterSendExec.new schema sp nodes groups) =
      .unknownPartitioning (((flattenGroups groups).map List.length).prod) ∧
    (ClusterSendExec.new schema sp nodes groups).partitions =
      cartList (flattenGroups groups) ∧
    (∀ (A B : List Partition) (i j : Nat) (x y : Partition),
      flattenGroups groups = [A, B] → A[i]? = some x → B[j]? = some y →
      (ClusterSendExec.new schema sp nodes groups).partitions[i * B.length + j]? =
        some [x, y]) ∧
    (∀ (i : Nat) (tuple : List Partition) (node : String),
      (ClusterSendExec.new schema sp nodes groups).partitions[i]? = some tuple →
      nodes.head? = some node →
      ClusterSendExec.executeDispatch (ClusterSendExec.new schema sp nodes groups) i =
        some (node, sp.withPartitionIdToExecute (tuple.map (fun p => p.id)))) := by
  have hpart := clusterSendNew_partitions schema sp nodes groups hg
  refine ⟨?_, hpart, fun A B i j x y hAB hx hy => ?_, fun i tuple node ht hn => ?_⟩
  · simp only [ClusterSendExec.outputPartitioning, hpart, cartList_length]
  · rw [hpart, hAB]
    have hy' : (cartList [B])[j]? = some [y] := by
      rw [cartList_single, List.getElem?_map, hy]
      rfl
    have := cartList_getElem A [B] i j x [y] hx hy'
    rwa [cartList_single, List.length_map] at this
  · have hnodes : (ClusterSendExec.new schema sp nodes groups).availableNodes = nodes := rfl
    unfold ClusterSendExec.executeDispatch
    rw [hnodes, hn, ht]
    rfl

/-- Witness for C2: two groups with 2 and 3 partitions give 6 output
partitions, tuple `(a₁, b₂)` at index `1·3+2 = 5`, and dispatch of
partition 5 selects node-1 and partition IDs `[2, 5]`. -/
theorem c2_witness :
    ClusterSendExec.outputPartitioning
      (ClusterSendExec.new [colA] sp0 nodes0 [[snapA], [snapB]]) =
      .unknownPartitioning (((flattenGroups [[snapA], [snapB]]).map List.length).prod) ∧
    ClusterSendExec.executeDispatch
      (ClusterSendExec.new [colA] sp0 nodes0 [[snapA], [snapB]]) 5 =
      some ("node-1", sp0.withPartitionIdToExecute [2, 5]) := by
  have h := c2_cluster_send_cartesian [colA] sp0 nodes0 [[snapA], [snapB]] (by simp)
  refine ⟨h.1, ?_⟩
  have hd := h.2.2.2 5 [⟨2, none⟩, ⟨5, none⟩] "node-1" (by decide) rfl
  exact hd

lemma findIdx?_some_spec (p : α → Bool) (l : List α) (i q : Nat)
    (h : l.findIdx? p i = some q) :
    i ≤ q ∧ ∃ c, l[q - i]? = some c ∧ p c = true := by
  induction l generalizing i with
  | nil => simp [List.findIdx?] at h
  | cons x xs ih =>
    rw [List.findIdx?_cons] at h
    by_cases hp : p x = true
    · rw [if_pos hp] at h
      obtain rfl : i = q := by simpa using h
      exact ⟨le_refl i, x, by simp, hp⟩
    · rw [if_neg hp] at h
      obtain ⟨hle, c, hc, hpc⟩ := ih (i + 1) h
      refine ⟨by omega, c, ?_, hpc⟩
      have : q - i = (q - (i + 1)) + 1 := by omega
      rw [this, List.getElem?_cons_succ]
      exact hc

lemma filterMap_guard_eq (l : List (α × β)) (p : α → Bool) :
    l.filterMap (fun f => if p f.1 then some f.2 else none) =
      (l.filter (fun f => p f.1)).map Prod.snd := by
  induction l with
  | nil => rfl
  | cons a t ih =>
    cases hp : p a.1 <;> simp [List.filterMap_cons, List.filter_cons, hp, ih]

/-- C3 counterexample: for table `[a,b,c]`, index `[b,c,a]` and projection
`[0,2]` the resolved index positions are `[2,1]`, but the scan's output
schema is `[c, a]` — the index schema filtered in *index-schema order* —
not `[a, c]` as the claim's order-of-Q reading expects. -/
theorem c3_counterexample :
    mappedProjectionOf c3Table [0, 2] = some [2, 1] ∧
    (CubeTable.asyncScan c3Table (some [0, 2]) 4096).map ExecPlan.schema =
      some [colC, colA] ∧
    (CubeTable.asyncScan c3Table (some [0, 2]) 4096).map ExecPlan.schema ≠
      some [colA, colC] := by
  decide

/-- C3 amended: positions resolve by column name (the resolved index
position carries the same column name as the projected table column), and
the output schema is the index schema filtered to the positions occurring
in Q, preserving the *index-schema* order (it is a sublist of the index
schema); in the scenario the positions are `[2,1]` and the output schema is
`[c:double, a:int]`. -/
theorem c3_projection_remap :
    (∀ (cols index : List Column) (j q : Nat),
      (projectToIndexPositions cols index)[j]? = some (some q) →
      ∃ pc c, cols[j]? = some pc ∧ index[q]? = some c ∧ c.name = pc.name) ∧
    (∀ (schema : List Column) (p : List Nat),
      projectedSchema schema p =
        (schema.enum.filter (fun f => p.contains f.1)).map Prod.snd) ∧
    (∀ (schema : List Column) (p : List Nat),
      (projectedSchema schema p).Sublist schema) ∧
    mappedProjectionOf c3Table [0, 2] = some [2, 1] ∧
    (CubeTable.asyncScan c3Table (some [0, 2]) 4096).map ExecPlan.schema =
      some [colC, colA] := by
  have hcharacterize : ∀ (schema : List Column) (p : List Nat),
      projectedSchema schema p =
        (schema.enum.filter (fun f => p.contains f.1)).map Prod.snd := by
    intro schema p
    rw [projectedSchema, filterMap_guard_eq]
  refine ⟨fun cols index j q h => ?_, hcharacterize, fun schema p => ?_,
    by decide, by decide⟩
  · rw [projectToIndexPositions, List.getElem?_map] at h
    cases hc : cols[j]? with
    | none => rw [hc] at h; exact Option.noConfusion h
    | some pc =>
      rw [hc] at h
      simp only [Option.map_some', Option.some.injEq] at h
      obtain ⟨-, c, hcq, hpc⟩ := findIdx?_some_spec _ index 0 q h
      refine ⟨pc, c, rfl, by simpa using hcq, by simpa using hpc⟩
  · rw [hcharacterize]
    have h := (List.filter_sublist (p := fun f => p.contains f.1) schema.enum).map
      Prod.snd
    rwa [List.enum_map_snd] at h

/-- Witness for C3 amended: resolving column `a` against index `[b,c,a]`
yields position 2, whose column indeed has name `a`. -/
theorem c3_witness :
    ∃ pc c, ([colA] : List Column)[0]? = some pc ∧
      ([colB, colC, colA] : List Column)[2]? = some c ∧ c.name = pc.name :=
  c3_projection_remap.1 [colA] [colB, colC, colA] 0 2 (by decide)

/-- C7: partitions outside `worker_partition_ids` are silently skipped
(pre-filtering the snapshot to the selected IDs does not change the scan
fan-out); with an empty ID set no scan node is emitted and the scan is a
merge over a single empty-relation node carrying the full index schema,
whose execution produces zero batches. -/
theorem c7_skip_and_empty :
    (∀ (t : CubeTable) (mp : Option (List Nat)) (bs : Nat),
      buildPartitionExecs
        ⟨⟨t.indexSnapshot.tableCols, t.indexSnapshot.indexCols,
          t.indexSnapshot.partitions.filter
            (fun ps => t.workerPartitionIds.contains ps.partition.id),
          t.indexSnapshot.joinOn⟩,
         t.remoteToLocalNames, t.workerPartitionIds⟩ mp bs =
        buildPartitionExecs t mp bs) ∧
    (∀ (t : CubeTable) (mp : Option (List Nat)) (bs : Nat),
      t.workerPartitionIds = [] → buildPartitionExecs t mp bs = some []) ∧
    (∀ (t : CubeTable) (bs : Nat), t.workerPartitionIds = [] →
      t.indexSnapshot.joinOn = none →
      CubeTable.asyncScan t none bs =
        some (.mk t.schema .mergeExec
          [.mk t.schema (.cubeTableExec t.indexSnapshot)
            [.mk t.schema (.emptyExec false) []]])) ∧
    emptyExecBatchCount false = 0 := by
  have hempty : ∀ (t : CubeTable) (mp : Option (List Nat)) (bs : Nat),
      t.workerPartitionIds = [] → buildPartitionExecs t mp bs = some [] := by
    intro t mp bs h
    have hf : t.indexSnapshot.partitions.filter
        (fun ps => t.workerPartitionIds.contains ps.partition.id) = [] := by
      rw [h]
      simp
    rw [buildPartitionExecs, hf, List.mapM_nil]
    rfl
  refine ⟨fun t mp bs => ?_, hempty, fun t bs hids hjoin => ?_, rfl⟩
  · simp only [buildPartitionExecs, List.filter_filter, Bool.and_self]
    rfl
  · have hb := hempty t none bs hids
    simp [CubeTable.asyncScan, hb, hjoin]

/-- Witness for C7 at a concrete table with an empty partition-ID set. -/
theorem c7_witness :
    CubeTable.asyncScan c7Table none 4096 =
      some (.mk c7Table.schema .mergeExec
        [.mk c7Table.schema (.cubeTableExec c7Table.indexSnapshot)
          [.mk c7Table.schema (.emptyExec false) []]]) :=
  c7_skip_and_empty.2.2.1 c7Table 4096 rfl rfl

/-- C4 counterexample: for `Projection(IndexScan)` — a plan with no
HashAggregate, Sort or GlobalLimit — the router split happens at the root
(the always-true predicate matches immediately): the root's children are
replaced wholesale by `Merge(ClusterSend)`, and no `IndexScan` node
survives in the result, so no leaf was recursively wrapped. -/
theorem c4_counterexample :
    hasNode .hashAgg c4Plan = false ∧ hasNode .sortK c4Plan = false ∧
    hasNode .limitK c4Plan = false ∧
    getRouterSplitPlan sp0 nodes0 c4Plan =
      some (.mk [colA] (.otherExec "Projection")
        [.mk [colA] .mergeExec
          [.mk [colA]
            (.clusterSendExec (ClusterSendExec.new [colA] sp0 nodes0 [[snapA]]))
            []]]) ∧
    (getRouterSplitPlan sp0 nodes0 c4Plan).map indexSnapshots = some [] := by
  refine ⟨by decide, by decide, by decide, ?_, ?_⟩ <;>
    simp [getRouterSplitPlan, getRouterSplitPlanAt, hasNode, hasNodeList,
      kindMatches, predEval, wrapWithClusterSend, unionSnapshots,
      unionSnapshotsList, indexSnapshots, indexSnapshotsList, withNewChildren,
      ExecPlan.children, ExecPlan.kind, ExecPlan.schema, c4Plan, c1Scan]

/-- C4 amended: when the plan contains no HashAggregate, Sort or
GlobalLimit, the always-true fallback predicate matches at the root, so
`router_split` wraps at the root node itself — replacing the root's
children with the single `Merge(ClusterSend)` (or empty-relation) child —
rather than recursing to wrap leaves. -/
theorem c4_fallback_splits_at_root (sp : SerializedPlan) (nodes : List String)
    (p : ExecPlan) (h1 : hasNode .hashAgg p = false)
    (h2 : hasNode .sortK p = false) (h3 : hasNode .limitK p = false) :
    getRouterSplitPlan sp nodes p = wrapWithClusterSend sp nodes p := by
  cases p with
  | mk s nd cs =>
    rw [getRouterSplitPlan, h1, h2, h3]
    simp only [Bool.false_eq_true, if_false]
    rw [getRouterSplitPlanAt]
    simp [predEval]

/-- Witness for C4 amended at the concrete `Projection(IndexScan)` plan. -/
theorem c4_witness :
    getRouterSplitPlan sp0 nodes0 c4Plan = wrapWithClusterSend sp0 nodes0 c4Plan :=
  c4_fallback_splits_at_root sp0 nodes0 c4Plan (by decide) (by decide) (by decide)

/-- C1: the router split picks its predicate by first-match on
[HashAggregate, Sort, GlobalLimit]; at a matching node with non-empty
union-snapshot groups the children are replaced by exactly one child — a
non-preserving `Merge` over a single `ClusterSend` built from the first
child's schema and the groups; and for `HashAggregate(Sort(IndexScan))`
the router obtains `HashAggregate(Merge(ClusterSend))` while the worker
obtains `Sort(IndexScan)`. -/
theorem c1_router_split_first_match :
    (∀ (sp : SerializedPlan) (ns : List String) (p : ExecPlan),
      hasNode .hashAgg p = true →
      getRouterSplitPlan sp ns p = getRouterSplitPlanAt sp ns .predHashAgg p) ∧
    (∀ (sp : SerializedPlan) (ns : List String) (p : ExecPlan),
      hasNode .hashAgg p = false → hasNode .sortK p = true →
      getRouterSplitPlan sp ns p = getRouterSplitPlanAt sp ns .predSort p) ∧
    (∀ (sp : SerializedPlan) (ns : List String) (p : ExecPlan),
      hasNode .hashAgg p = false → hasNode .sortK p = false →
      hasNode .limitK p = true →
      getRouterSplitPlan sp ns p = getRouterSplitPlanAt sp ns .predLimit p) ∧
    (∀ (sp : SerializedPlan) (ns : List String) (pk : PredKind) (p : ExecPlan)
      (c0 : ExecPlan) (cs : List ExecPlan),
      predEval pk p = true → p.children = c0 :: cs → unionSnapshots p ≠ [] →
      getRouterSplitPlanAt sp ns pk p =
        withNewChildren p
          [.mk c0.schema .mergeExec
            [.mk c0.schema
              (.clusterSendExec
                (ClusterSendExec.new c0.schema sp ns (unionSnapshots p))) []]]) ∧
    getRouterSplitPlan sp0 nodes0 c1Plan = some c1Router ∧
    getWorkerSplitPlan c1Plan = some c1Worker := by
  refine ⟨fun sp ns p h => ?_, fun sp ns p h1 h2 => ?_,
    fun sp ns p h1 h2 h3 => ?_, fun sp ns pk p c0 cs hpred hc hg => ?_, ?_, ?_⟩
  · rw [getRouterSplitPlan, h]
    simp
  · rw [getRouterSplitPlan, h1, h2]
    simp
  · rw [getRouterSplitPlan, h1, h2, h3]
    simp
  · cases p with
    | mk s nd cs' =>
      rw [getRouterSplitPlanAt, if_pos hpred]
      rw [wrapWithClusterSend]
      simp only [ExecPlan.children] at hc
      subst hc
      simp only [ExecPlan.children, List.head?_cons]
      rw [if_neg (by simpa using hg)]
  · simp [getRouterSplitPlan, getRouterSplitPlanAt, hasNode, hasNodeList,
      kindMatches, predEval, isHashAggregate, wrapWithClusterSend,
      unionSnapshots, unionSnapshotsList, indexSnapshots, indexSnapshotsList,
      withNewChildren, ExecPlan.children, ExecPlan.kind, ExecPlan.schema,
      c1Plan, c1Scan, c1Router]
  · simp [getWorkerSplitPlan, hasNode, hasNodeList, kindMatches, predEval,
      isHashAggregate, c1Plan, c1Scan, c1Worker, ExecPlan.children,
      ExecPlan.kind, ExecPlan.schema]

/-- Witness for C1: the first-match selection instantiated at the
aggregate-split scenario plan. -/
theorem c1_witness :
    getRouterSplitPlan sp0 nodes0 c1Plan =
      getRouterSplitPlanAt sp0 nodes0 .predHashAgg c1Plan :=
  c1_router_split_first_match.1 sp0 nodes0 c1Plan (by decide)

end QueryExec
